import Mathlib

set_option autoImplicit false

namespace Cook

/-- JSON-shaped values: the loosely-typed trees used for job templates,
raw-job overrides and request bodies (`submit.py` manipulates Python
dicts/lists/scalars produced by `json.loads` and `argparse`). Mappings are
association lists of string keys; numbers are modelled as integers (no claim
computes with fractional resource values). -/
inductive JVal where
  | null : JVal
  | bool : Bool → JVal
  | num : Int → JVal
  | str : String → JVal
  | arr : List JVal → JVal
  | obj : List (String × JVal) → JVal
deriving Repr

/-- An object (Python dict) as an association list, first binding wins. -/
abbrev JObj := List (String × JVal)

/-- First value bound to key `k`, like Python `d.get(k)` / `k in d`. -/
def lookupJ (k : String) : JObj → Option JVal
  | [] => none
  | e :: es => if e.1 = k then some e.2 else lookupJ k es

/-- Python dict assignment `d[k] = v`: replace the first binding of `k` in
place, or append a new binding. -/
def oset (k : String) (v : JVal) : JObj → JObj
  | [] => [(k, v)]
  | e :: es => if e.1 = k then (k, v) :: es else e :: oset k v es

/-- Python `d.pop(k)`: remove the first binding of `k`. -/
def orem (k : String) : JObj → JObj
  | [] => []
  | e :: es => if e.1 = k then es else e :: orem k es

/-- Python truthiness of a JSON-shaped value. -/
def truthyV : JVal → Bool
  | JVal.null => false
  | JVal.bool b => b
  | JVal.num n => decide (n ≠ 0)
  | JVal.str s => decide (s ≠ "")
  | JVal.arr l => !l.isEmpty
  | JVal.obj m => !m.isEmpty

/-- Python truthiness of `d.get(k)`-style optional values (`None` is falsy). -/
def truthy (v : Option JVal) : Bool :=
  match v with
  | none => false
  | some w => truthyV w

mutual
/-- Modelled from the spec: `deep_merge` is imported from `cook.util`, which
is not part of this module's sources. StructuredMerge contract: for a mapping
key present in both operands, if both values are mappings, recurse; otherwise
the override's value wins outright (including when the types differ); keys
present only in the override are added, keys present only in the base are
preserved; lists are never element-wise merged. -/
def deep_merge : JVal → JVal → JVal
  | JVal.obj b, JVal.obj o => JVal.obj (mergeEntries b o ++ o.filter (fun e => (lookupJ e.1 b).isNone))
  | _, o => o

/-- One entry of the merged mapping for each base entry, in base order:
merged recursively with the override's value at that key when present. -/
def mergeEntries : JObj → JObj → JObj
  | [], _ => []
  | (k, v) :: bs, o =>
      (k, match lookupJ k o with
          | some w => deep_merge v w
          | none => v) :: mergeEntries bs o
end

/-- The mapping-level merge (`deep_merge` on two objects). -/
def mergeObj (b o : JObj) : JObj :=
  mergeEntries b o ++ o.filter (fun e => (lookupJ e.1 b).isNone)

theorem deep_merge_obj_obj (b o : JObj) : deep_merge (JVal.obj b) (JVal.obj o) = JVal.obj (mergeObj b o) := by
  rw [deep_merge, mergeObj]

theorem lookupJ_append (k : String) (l₁ l₂ : JObj) :
    lookupJ k (l₁ ++ l₂) = match lookupJ k l₁ with
      | some v => some v
      | none => lookupJ k l₂ := by
  induction l₁ with
  | nil => simp [lookupJ]
  | cons e es ih =>
      by_cases h : e.1 = k
      · simp [lookupJ, h]
      · simp [lookupJ, h, ih]

theorem lookupJ_mergeEntries (k : String) (b o : JObj) :
    lookupJ k (mergeEntries b o) =
      match lookupJ k b with
      | some v => some (match lookupJ k o with
          | some w => deep_merge v w
          | none => v)
      | none => none := by
  induction b with
  | nil => simp [lookupJ, mergeEntries]
  | cons e es ih =>
      obtain ⟨k', v'⟩ := e
      by_cases h : k' = k
      · simp [lookupJ, mergeEntries, h]
      · simp [lookupJ, mergeEntries, h, ih]

theorem lookupJ_filter_none (k : String) (b o : JObj) (hb : lookupJ k b = none) :
    lookupJ k (o.filter (fun e => (lookupJ e.1 b).isNone)) = lookupJ k o := by
  induction o with
  | nil => simp [lookupJ]
  | cons e es ih =>
      by_cases h : e.1 = k
      · subst h
        simp [List.filter, hb, lookupJ]
      · by_cases hkeep : (lookupJ e.1 b).isNone
        · simp [List.filter, hkeep, lookupJ, h, ih]
        · simp [List.filter, hkeep, lookupJ, h, ih]

theorem lookupJ_filter_some (k : String) (b o : JObj) (v : JVal) (hb : lookupJ k b = some v) :
    lookupJ k (o.filter (fun e => (lookupJ e.1 b).isNone)) = none := by
  induction o with
  | nil => simp [lookupJ]
  | cons e es ih =>
      by_cases h : e.1 = k
      · subst h
        simp [List.filter, hb, ih]
      · by_cases hkeep : (lookupJ e.1 b).isNone
        · simp [List.filter, hkeep, lookupJ, h, ih]
        · simp [List.filter, hkeep, ih]

/-- The single equation characterising `mergeObj` through lookups: recursive
merge where both operands bind the key, override wins where only it binds,
base preserved where only it binds. -/
theorem lookupJ_mergeObj (k : String) (b o : JObj) :
    lookupJ k (mergeObj b o) =
      match lookupJ k b with
      | some v => some (match lookupJ k o with
          | some w => deep_merge v w
          | none => v)
      | none => lookupJ k o := by
  rw [mergeObj, lookupJ_append, lookupJ_mergeEntries]
  cases hb : lookupJ k b with
  | none => simp [lookupJ_filter_none k b o hb]
  | some v => simp

theorem deep_merge_not_obj_right (b w : JVal) (hw : ∀ m : JObj, w ≠ JVal.obj m) :
    deep_merge b w = w := by
  cases b <;> cases w <;> first
    | rfl
    | exact absurd rfl (hw _)

theorem deep_merge_not_obj_left (b w : JVal) (hb : ∀ m : JObj, b ≠ JVal.obj m) :
    deep_merge b w = w := by
  cases b <;> first
    | rfl
    | exact absurd rfl (hb _)

/-! ## Federated submission (`submit_federated`, submit.py lines 78-108) -/

/-- One configured scheduler endpoint. -/
structure Cluster where
  name : String
  url : String
deriving DecidableEq, Repr

/-- Outcome of one transport call (`http.post`): a response with a status
code and a text body, a read-timeout (`requests.exceptions.ReadTimeout`), or
a connectivity failure (`IOError`). -/
inductive Wire where
  | resp : Nat → String → Wire
  | readTimeout : Wire
  | connError : Wire
deriving DecidableEq, Repr

/-- The aggregate-failure exception text (line 108; colour wrapping is
rendering, out of scope). -/
def allFailedMsg : String := "Job submission failed on all of your configured clusters."

/-- The read-timeout warning printed at lines 100-101 for a given cluster. -/
def timeoutMsg (c : Cluster) : String :=
  "Encountered read timeout with " ++ c.name ++ " (" ++ c.url ++ "). Your submission may have completed."

/-- The request body built at lines 89-91: `{jobs: [...]}` plus
`groups: [group]` when a group exists. -/
def requestBody (jobs : List JVal) (group : Option JObj) : JVal :=
  match group with
  | some g => JVal.obj [("jobs", JVal.arr jobs), ("groups", JVal.arr [JVal.obj g])]
  | none => JVal.obj [("jobs", JVal.arr jobs)]

/-- Terminal outcome of `submit_federated`: `success name` is `return 0`
after a 201 from the named cluster, `ambiguousTimeout w` is `return 1` after
printing warning `w`, `exhausted m` is the raised aggregate exception. -/
inductive FedOutcome where
  | success : String → FedOutcome
  | ambiguousTimeout : String → FedOutcome
  | exhausted : String → FedOutcome
deriving DecidableEq, Repr

/-- The federated loop of submit.py lines 83-108, paired with the trace of
clusters for which a transport call was actually made, in call order. A 201
response returns success at once; a read-timeout prints the warning and
returns 1 at once; a non-201 response or a connectivity error advances to the
next cluster; an exhausted list raises the aggregate failure. -/
def submit_federated (transport : Cluster → JVal → Wire) (body : JVal) : List Cluster → FedOutcome × List Cluster
  | [] => (FedOutcome.exhausted allFailedMsg, [])
  | c :: rest =>
      match transport c body with
      | Wire.resp code _ =>
          if code = 201 then (FedOutcome.success c.name, [c])
          else
            let p := submit_federated transport body rest
            (p.1, c :: p.2)
      | Wire.readTimeout => (FedOutcome.ambiguousTimeout (timeoutMsg c), [c])
      | Wire.connError =>
          let p := submit_federated transport body rest
          (p.1, c :: p.2)

/-- Process exit code of a federated outcome: 0 on success, 1 after a
read-timeout, none (an uncaught exception, hence a non-zero process exit)
when all clusters were exhausted. -/
def fedExit : FedOutcome → Option Nat
  | FedOutcome.success _ => some 0
  | FedOutcome.ambiguousTimeout _ => some 1
  | FedOutcome.exhausted _ => none

/-- A transport outcome after which the loop advances to the next cluster:
a non-201 response or a connectivity error. -/
def advances (w : Wire) : Bool :=
  match w with
  | Wire.resp code _ => decide (code ≠ 201)
  | Wire.readTimeout => false
  | Wire.connError => true

theorem submit_federated_advance (transport : Cluster → JVal → Wire) (body : JVal)
    (pre rest : List Cluster)
    (hpre : ∀ c ∈ pre, advances (transport c body) = true) :
    submit_federated transport body (pre ++ rest) =
      ((submit_federated transport body rest).1, pre ++ (submit_federated transport body rest).2) := by
  induction pre with
  | nil => simp
  | cons c cs ih =>
      have hc := hpre c (by simp)
      have hcs : ∀ c' ∈ cs, advances (transport c' body) = true := fun c' h => hpre c' (by simp [h])
      cases hw : transport c body with
      | resp code text =>
          have hcode : code ≠ 201 := by simpa [advances, hw] using hc
          simp [submit_federated, hw, hcode, ih hcs]
      | readTimeout => simp [advances, hw] at hc
      | connError => simp [submit_federated, hw, ih hcs]

/-- C1: if some cluster returns HTTP 201, federated submission terminates
successfully at that cluster; no later cluster is ever contacted, and each
earlier cluster that failed with a connectivity error was tried exactly once,
in list order (the trace of transport calls is exactly `pre ++ [c]`). -/
theorem claim_C1 (transport : Cluster → JVal → Wire) (body : JVal)
    (pre post : List Cluster) (c : Cluster) (respText : String)
    (hpre : ∀ c' ∈ pre, transport c' body = Wire.connError)
    (hc : transport c body = Wire.resp 201 respText) :
    submit_federated transport body (pre ++ c :: post) = (FedOutcome.success c.name, pre ++ [c]) := by
  have hadv : ∀ c' ∈ pre, advances (transport c' body) = true := by
    intro c' h
    simp [advances, hpre c' h]
  rw [submit_federated_advance transport body pre (c :: post) hadv]
  simp [submit_federated, hc]

/-- Transport for the spec's three-cluster scenario: cluster `c1` is
unreachable, `c2` accepts with 201, `c3` would reject. -/
def wireOf3 (c : Cluster) (_ : JVal) : Wire :=
  if c.name = "c1" then Wire.connError
  else if c.name = "c2" then Wire.resp 201 ("ok")
  else Wire.resp 500 ("no")

def cl1 : Cluster := ⟨"c1", "u1"⟩

def cl2 : Cluster := ⟨"c2", "u2"⟩

def cl3 : Cluster := ⟨"c3", "u3"⟩

theorem claim_C1_witness :
    submit_federated wireOf3 (JVal.obj []) [cl1, cl2, cl3] = (FedOutcome.success ("c2"), [cl1, cl2]) := by
  have h := claim_C1 wireOf3 (JVal.obj []) [cl1] [cl3] cl2 ("ok")
    (by intro c' hm; simp at hm; subst hm; rfl) rfl
  simpa using h

/-- C2: if the loop reaches a cluster whose transport call raises a
read-timeout, iteration stops at once: the trace is exactly the clusters
tried so far plus that one (no later cluster, no retry), the reported warning
says the submission may have completed, and the overall result is exit
code 1 — a constructor distinct from the all-clusters-rejected aggregate
failure. -/
theorem claim_C2 (transport : Cluster → JVal → Wire) (body : JVal)
    (pre post : List Cluster) (c : Cluster)
    (hpre : ∀ c' ∈ pre, advances (transport c' body) = true)
    (hc : transport c body = Wire.readTimeout) :
    submit_federated transport body (pre ++ c :: post) = (FedOutcome.ambiguousTimeout (timeoutMsg c), pre ++ [c])
    ∧ (∃ s : String, timeoutMsg c = s ++ "Your submission may have completed.")
    ∧ fedExit (FedOutcome.ambiguousTimeout (timeoutMsg c)) = some 1
    ∧ ∀ m : String, FedOutcome.ambiguousTimeout (timeoutMsg c) ≠ FedOutcome.exhausted m := by
  refine ⟨?_, ⟨"Encountered read timeout with " ++ c.name ++ " (" ++ c.url ++ "). ", ?_⟩,
    rfl, fun m h => FedOutcome.noConfusion h⟩
  · rw [submit_federated_advance transport body pre (c :: post) hpre]
    simp [submit_federated, hc]
  · simp [timeoutMsg, String.append_assoc]

/-- Transport where cluster `c1` rejects with 400 and `c2` times out. -/
def wireTimeout (c : Cluster) (_ : JVal) : Wire :=
  if c.name = "c1" then Wire.resp 400 ("bad")
  else Wire.readTimeout

theorem claim_C2_witness :
    submit_federated wireTimeout (JVal.obj []) [cl1, cl2, cl3] = (FedOutcome.ambiguousTimeout (timeoutMsg cl2), [cl1, cl2])
    ∧ fedExit (FedOutcome.ambiguousTimeout (timeoutMsg cl2)) = some 1 := by
  have h := claim_C2 wireTimeout (JVal.obj []) [cl1] [cl3] cl2
    (by intro c' hm; simp at hm; subst hm; rfl) rfl
  exact ⟨by simpa using h.1, h.2.2.1⟩

/-- C3: if every cluster of a non-empty list responds with a non-201 status,
exactly one transport attempt is made per cluster, in list order (the trace
is the whole list), and the invocation ends with the raised aggregate
failure naming all configured clusters. -/
theorem claim_C3 (transport : Cluster → JVal → Wire) (body : JVal)
    (clusters : List Cluster) (_hne : clusters ≠ [])
    (hall : ∀ c ∈ clusters, ∃ code text, code ≠ 201 ∧ transport c body = Wire.resp code text) :
    submit_federated transport body clusters = (FedOutcome.exhausted allFailedMsg, clusters)
    ∧ fedExit (FedOutcome.exhausted allFailedMsg) = none := by
  have hadv : ∀ c ∈ clusters, advances (transport c body) = true := by
    intro c h
    obtain ⟨code, text, hcode, hw⟩ := hall c h
    simp [advances, hw, hcode]
  have h := submit_federated_advance transport body clusters [] hadv
  refine ⟨?_, rfl⟩
  simpa [submit_federated] using h

/-- Transport where every cluster rejects with 422. -/
def wireReject (_ : Cluster) (_ : JVal) : Wire := Wire.resp 422 ("rejected")

theorem claim_C3_witness :
    submit_federated wireReject (JVal.obj []) [cl1, cl2, cl3] = (FedOutcome.exhausted allFailedMsg, [cl1, cl2, cl3]) := by
  have h := claim_C3 wireReject (JVal.obj []) [cl1, cl2, cl3] (by simp)
    (by intro c hm; exact ⟨422, "rejected", by simp, rfl⟩)
  exact h.1

/-! ## Response interpretation for a 201 (`print_submit_result`, lines 57-63) -/

/-- The double-quote character, the argument of `text.strip` at line 58. -/
def quoteChar : Char := Char.ofNat 34

/-- The hyphen character of the canonical UUID shape. -/
def hyphenChar : Char := Char.ofNat 45

/-- Hexadecimal digit (either case). -/
def isHexCh (c : Char) : Bool :=
  c.isDigit || (97 ≤ c.toNat && c.toNat ≤ 102) || (65 ≤ c.toNat && c.toNat ≤ 70)

/-- Modelled from the spec: `is_valid_uuid` is imported from `cook.util`,
which is not part of this module's sources. A token is a syntactically valid
UUID when it has the canonical 36-character shape: hyphens at positions 8,
13, 18 and 23, hexadecimal digits everywhere else. -/
def is_valid_uuid (s : String) : Bool :=
  let cs := s.data
  (cs.length == 36) && cs.enum.all (fun p =>
    if p.1 == 8 || p.1 == 13 || p.1 == 18 || p.1 == 23 then p.2 == hyphenChar
    else isHexCh p.2)

/-- Python `text.strip(q)` (line 58): remove all leading and all trailing
quote characters. -/
def stripQuoteChars (s : String) : String :=
  String.mk (((s.data.dropWhile (fun ch => ch == quoteChar)).reverse.dropWhile (fun ch => ch == quoteChar)).reverse)

/-- The literal group marker of lines 59-61. -/
def groupsMarkerChars : List Char := (" submitted groups").data

/-- Does `m` start the character list? -/
def startsList : List Char → List Char → Bool
  | [], _ => true
  | _ :: _, [] => false
  | x :: xs, y :: ys => x == y && startsList xs ys

/-- The characters before the first occurrence of marker `m`, the whole list
when `m` does not occur: Python `text[:text.index(m)]` guarded by
`m in text` (lines 59-61). -/
def beforeMarker (m : List Char) : List Char → List Char
  | [] => []
  | ch :: rest => if startsList m (ch :: rest) then [] else ch :: beforeMarker m rest

/-- Python `str.split()` with no argument: maximal runs of non-whitespace
characters, with `acc` the (reversed) run being read. -/
def wsTokensAux (acc : List Char) : List Char → List String
  | [] => if acc.isEmpty then [] else [String.mk acc.reverse]
  | ch :: rest =>
      if ch.isWhitespace then
        if acc.isEmpty then wsTokensAux [] rest
        else String.mk acc.reverse :: wsTokensAux [] rest
      else wsTokensAux (ch :: acc) rest

/-- The job-identifier extraction of `print_submit_result` for a 201
response (lines 57-62): strip all surrounding quote characters, truncate at
the first group marker, split on whitespace, keep exactly the tokens that
are syntactically valid UUIDs, in order. -/
def print_submit_result_uuids (text : String) : List String :=
  let t := stripQuoteChars text
  let t2 := String.mk (beforeMarker groupsMarkerChars t.data)
  (wsTokensAux [] t2.data).filter (fun p => is_valid_uuid p)

/-- The claim's trimming step as stated: remove a *single* layer of
surrounding quote characters (at most one leading and one trailing). -/
def dropOneQuote : List Char → List Char
  | [] => []
  | ch :: rest => if ch == quoteChar then rest else ch :: rest

/-- Single-layer trim of surrounding quote characters. -/
def trimOneQuoteLayer (s : String) : String :=
  String.mk ((dropOneQuote ((dropOneQuote s.data).reverse)).reverse)

/-- The extraction pipeline exactly as the claim states it, with the
single-layer trim in place of the code's strip-all. -/
def claimedExtract (text : String) : List String :=
  let t := trimOneQuoteLayer text
  let t2 := String.mk (beforeMarker groupsMarkerChars t.data)
  (wsTokensAux [] t2.data).filter (fun p => is_valid_uuid p)

/-- The amended claim's trimming step: remove *all* leading and trailing
quote characters, written by direct recursion. -/
def dropQuotesRec : List Char → List Char
  | [] => []
  | ch :: rest => if ch == quoteChar then dropQuotesRec rest else ch :: rest

/-- The amended extraction, following the amended claim's words: trim all
leading and trailing quote characters, truncate the text at the first
occurrence of the group marker, split on whitespace, keep the
syntactically-valid-UUID tokens in order. -/
def amendedExtract (text : String) : List String :=
  let t := String.mk ((dropQuotesRec ((dropQuotesRec text.data).reverse)).reverse)
  let t2 := String.mk (beforeMarker groupsMarkerChars t.data)
  (wsTokensAux [] t2.data).filter (fun p => is_valid_uuid p)

theorem dropQuotesRec_eq_dropWhile (cs : List Char) :
    dropQuotesRec cs = cs.dropWhile (fun ch => ch == quoteChar) := by
  induction cs with
  | nil => rfl
  | cons ch rest ih =>
      by_cases h : ch == quoteChar
      · simp [dropQuotesRec, List.dropWhile, h, ih]
      · simp [dropQuotesRec, List.dropWhile, h]

/-- A well-formed version-4-shaped UUID used in concrete scenarios. -/
def u0 : String := "00000000-0000-4000-8000-000000000000"

/-- `u0` wrapped in two layers of quote characters. -/
def doubleQuoted : String :=
  String.mk ([quoteChar, quoteChar] ++ u0.data ++ [quoteChar, quoteChar])

/-- C4 counterexample: on a body carrying two layers of quote characters the
code (which strips *all* surrounding quote characters, Python
`text.strip`) extracts the UUID, while the claimed single-layer trim leaves
a quote character attached to the token and extracts nothing. -/
theorem claim_C4_counterexample :
    print_submit_result_uuids doubleQuoted = [u0] ∧ claimedExtract doubleQuoted = [] := by
  constructor
  · decide
  · decide

/-- C4 (amended): the extracted job-identifier list is computed by trimming
*all* leading and trailing quote characters, truncating at the first
occurrence of the group marker when present, splitting on whitespace, and
keeping exactly the syntactically-valid-UUID tokens, in order. -/
theorem claim_C4 (text : String) : print_submit_result_uuids text = amendedExtract text := by
  simp [print_submit_result_uuids, amendedExtract, stripQuoteChars, dropQuotesRec_eq_dropWhile]

/-! ## Command acquisition (`acquire_commands`, lines 127-146) -/

/-- The single-quote character. -/
def sq : Char := Char.ofNat 39

/-- A character `shlex.quote` treats as safe: ASCII alphanumerics,
underscore, and the punctuation at-sign, percent, plus, equals, colon,
comma, dot, hyphen and slash. -/
def shlexSafeCh (c : Char) : Bool :=
  c.isAlphanum || c == Char.ofNat 95 || ("@%+=:,.-/").data.contains c

/-- The replacement `shlex.quote` applies inside quotes: each single quote
becomes quote, double-quoted quote, quote. -/
def shQuoteEsc : List Char → List Char
  | [] => []
  | c :: cs =>
      if c == sq then [sq, quoteChar, sq, quoteChar, sq] ++ shQuoteEsc cs
      else c :: shQuoteEsc cs

/-- Python `shlex.quote`: the empty string becomes two quotes, a string of
safe characters is returned unchanged, anything else is wrapped in single
quotes with embedded quotes escaped. -/
def shlexQuote (s : String) : String :=
  if s = "" then String.mk [sq, sq]
  else if s.data.all shlexSafeCh then s
  else String.mk ([sq] ++ shQuoteEsc s.data ++ [sq])

/-- Python `" ".join`. -/
def joinSpace : List String → String
  | [] => ""
  | [s] => s
  | s :: rest => s ++ " " ++ joinSpace rest

/-- `acquire_commands` (lines 127-146). With explicit tokens: a single token
is itself the one command; with more than one token a single leading "--" is
discarded, each token is shell-quoted, and the tokens are joined with single
spaces into exactly one command. With no tokens, commands are read from
stdin; zero commands is a failure. The interactive reader `read_lines` is in
`cook.util`, outside these sources — modelled from the spec: each non-empty
line read becomes one command. -/
def acquire_commands (cmdArgs : List String) (stdinLines : List String) : Except String (List String) :=
  if cmdArgs ≠ [] then
    if cmdArgs.length = 1 then Except.ok cmdArgs
    else
      let args2 := if cmdArgs.headD "" = "--" then cmdArgs.tail else cmdArgs
      Except.ok [joinSpace (args2.map shlexQuote)]
  else
    let commands := stdinLines.filter (fun l => l ≠ "")
    if commands.length < 1 then Except.error ("You must specify at least one command.")
    else Except.ok commands

/-- C10: a single explicit command-line token is used verbatim as the one
command — no shell-quoting, no discarding of a leading separator — while
with more than one token a single leading "--" is discarded and the tokens
are individually shell-quoted and space-joined. -/
theorem claim_C10 (t : String) (ts : List String) (stdinLines : List String) (hts : ts ≠ []) :
    acquire_commands [t] stdinLines = Except.ok [t]
    ∧ acquire_commands (t :: ts) stdinLines =
        Except.ok [joinSpace ((if t = "--" then ts else t :: ts).map shlexQuote)] := by
  constructor
  · simp [acquire_commands]
  · have hlen : (t :: ts).length ≠ 1 := by
      simp only [List.length_cons, ne_eq, Nat.add_left_eq_self, List.length_eq_zero]
      exact hts
    by_cases hdash : t = "--"
    · simp [acquire_commands, hlen, hdash, hts]
    · simp [acquire_commands, hlen, hdash, hts]

theorem claim_C10_witness :
    acquire_commands ["a b"] [] = Except.ok ["a b"]
    ∧ acquire_commands ["--"] [] = Except.ok ["--"]
    ∧ acquire_commands ["--", "a b", "c"] [] =
        Except.ok [String.mk ([sq] ++ ("a b").data ++ [sq] ++ (" c").data)] := by
  have h1 := (claim_C10 "a b" ["x"] [] (by simp)).1
  have h2 := (claim_C10 "--" ["a b", "c"] [] (by simp)).1
  have h3 := (claim_C10 "--" ["a b", "c"] [] (by simp)).2
  refine ⟨h1, h2, ?_⟩
  rw [h3]
  congr 1

/-! ## Raw job parsing (`parse_raw_job_spec`, lines 14-32) -/

/-- `parse_raw_job_spec` over the parse result of the stdin payload (`none`
is a JSON syntax error). A mapping yields exactly one job, the mapping
merged over the template with the override winning; a list yields one job
per element, each element merged over the template. Any other top-level
shape raises `ValueError` inside the `try`, which the handler at lines 31-32
swallows and re-raises — like a syntax error — as a malformed raw job. -/
def parse_raw_job_spec (job : JObj) (r : Option JVal) : Except String (List JVal) :=
  match r with
  | some (JVal.obj content) => Except.ok [deep_merge (JVal.obj job) (JVal.obj content)]
  | some (JVal.arr content) => Except.ok (content.map (fun c => deep_merge (JVal.obj job) c))
  | some _ => Except.error ("malformed JSON for raw job")
  | none => Except.error ("malformed JSON for raw job")

/-! ## Job assembly (`submit`, lines 149-202) -/

/-- Modelled from the spec: `version.VERSION`, the tool's own version tag,
lives outside these sources. -/
def cliVersion : String := "cook-cli-version"

/-- Python `str()` as used by the f-string at line 199. The rendering of
containers is abstracted (no claim evaluates it on a container value). -/
def pyStr : JVal → String
  | JVal.str s => s
  | JVal.num n => toString n
  | JVal.bool b => if b then "True" else "False"
  | JVal.null => "None"
  | JVal.arr _ => "<list>"
  | JVal.obj _ => "<dict>"

/-- The command-line token list carried under the "command" key (argparse
REMAINDER always yields a list of strings; absent means no tokens). -/
def strListOf : Option JVal → List String
  | some (JVal.arr vs) => vs.filterMap (fun v => match v with
      | JVal.str s => some s
      | _ => none)
  | _ => []

/-- The equals-sign character. -/
def eqCh : Char := Char.ofNat 61

/-- Python `e.split(eq, maxsplit=1)` when the separator occurs: the parts
before and after the first equals sign; `none` when it does not occur. -/
def splitOnceEq : List Char → Option (List Char × List Char)
  | [] => none
  | c :: cs =>
      if c == eqCh then some ([], cs)
      else match splitOnceEq cs with
        | some (a, b) => some (c :: a, b)
        | none => none

/-- `dict([e.split(eq, 1) for e in env])` (line 187): fold the `KEY=VALUE`
entries into a mapping, later duplicates overwriting earlier ones; an entry
without an equals sign, or a non-string entry, raises. -/
def envPairsAux (acc : JObj) : List JVal → Except String JObj
  | [] => Except.ok acc
  | JVal.str s :: rest =>
      match splitOnceEq s.data with
      | some (a, b) => envPairsAux (oset (String.mk a) (JVal.str (String.mk b)) acc) rest
      | none => Except.error ("ValueError: env entry without a separator")
  | _ :: _ => Except.error ("TypeError: env entry is not a string")

/-- The env-processing step of lines 186-187: when the template's env is
truthy, replace it by the mapping built from its `KEY=VALUE` entries. -/
def envStep (tpl : JObj) : Except String JObj :=
  if truthy (lookupJ ("env") tpl) then
    match lookupJ ("env") tpl with
    | some (JVal.arr es) =>
        match envPairsAux [] es with
        | Except.ok d => Except.ok (oset ("env") (JVal.obj d) tpl)
        | Except.error e => Except.error e
    | _ => Except.error ("TypeError: env value is not a list")
  else Except.ok tpl

/-- The per-job post-processing of lines 191-199: assign `gen k` as uuid
when the job's uuid is absent or falsy; assign the default name
`user ++ "_job"` when the name is absent or falsy; when the configured
command-prefix value is truthy rebuild the command as the prefix
concatenated directly (no separator) with the command. A job that is not a
mapping raises (`job.get` on a non-dict), as does a missing command when a
prefix is configured (`job["command"]`). Returns the job and the next fresh
uuid index. -/
def postOne (preV : JVal) (gen : Nat → String) (user : String) (k : Nat) : JVal → Except String (JVal × Nat)
  | JVal.obj j =>
      let jk : JObj × Nat :=
        if truthy (lookupJ ("uuid") j) then (j, k)
        else (oset ("uuid") (JVal.str (gen k)) j, k + 1)
      let j2 := if truthy (lookupJ ("name") jk.1) then jk.1
        else oset ("name") (JVal.str (user ++ "_job")) jk.1
      if truthyV preV then
        match lookupJ ("command") j2 with
        | some cv => Except.ok (JVal.obj (oset ("command") (JVal.str (pyStr preV ++ pyStr cv)) j2), jk.2)
        | none => Except.error ("KeyError: command")
      else Except.ok (JVal.obj j2, jk.2)
  | _ => Except.error ("AttributeError: raw job is not a mapping")

/-- The loop of lines 191-199 over the whole batch, threading the fresh-uuid
index left to right. -/
def postAll (preV : JVal) (gen : Nat → String) (user : String) : Nat → List JVal → Except String (List JVal)
  | _, [] => Except.ok []
  | k, j :: js =>
      match postOne preV gen user k j with
      | Except.error e => Except.error e
      | Except.ok jk =>
          match postAll preV gen user jk.2 js with
          | Except.error e => Except.error e
          | Except.ok rest => Except.ok (jk.1 :: rest)

/-- The template state after lines 154-172: the popped raw flag and
command tokens, the popped command-prefix value, the template with the
`application` field folded in and the group resolved, the optional group,
and the index of the next fresh uuid (1 when the group consumed one). -/
structure Stage1 where
  rawV : Option JVal
  cmdV : Option JVal
  preV : JVal
  tpl : JObj
  group : Option JObj
  k1 : Nat

/-- Lines 154-172 of `submit`: pop the raw flag, the command tokens, the
command-prefix (a missing command-prefix raises `KeyError`, though the
registered defaults always supply it), and application name/version with
their defaults; fold the application field into the template; when a group
name is present, generate a group uuid unless one was supplied, record the
group, leave the group uuid on the template and pop the group name. -/
def stage1 (args : JObj) (gen : Nat → String) : Except String Stage1 :=
  let rawV := lookupJ ("raw") args
  let t1 := orem ("raw") args
  let cmdV := lookupJ ("command") t1
  let t2 := orem ("command") t1
  match lookupJ ("command-prefix") t2 with
  | none => Except.error ("KeyError: command-prefix")
  | some preV =>
    let t3 := orem ("command-prefix") t2
    let appName := (lookupJ ("application-name") t3).getD (JVal.str ("cook-scheduler-cli"))
    let t4 := orem ("application-name") t3
    let appVer := (lookupJ ("application-version") t4).getD (JVal.str cliVersion)
    let t5 := orem ("application-version") t4
    let t6 := oset ("application") (JVal.obj [("name", appName), ("version", appVer)]) t5
    let hasG := (lookupJ ("group-name") t6).isSome
    let hasGU := (lookupJ ("group") t6).isSome
    let t7 := if hasG && !hasGU then oset ("group") (JVal.str (gen 0)) t6 else t6
    let k1 := if hasG && !hasGU then 1 else 0
    let group : Option JObj :=
      if hasG then
        some [("name", (lookupJ ("group-name") t7).getD JVal.null),
              ("uuid", (lookupJ ("group") t7).getD JVal.null)]
      else none
    let tpl := if hasG then orem ("group-name") t7 else t7
    Except.ok ⟨rawV, cmdV, preV, tpl, group, k1⟩

/-- The assembly phase of `submit` (lines 149-201): template extraction and
group resolution, then job construction — raw mode parses the stdin payload
(after rejecting explicit command tokens), command mode resolves commands,
checks an explicit uuid against multiple commands, processes env entries and
merges each command onto the template — and finally the uniform per-job
post-processing, applied to every job of either mode. `gen` supplies the
successive outputs of `uuid.uuid4` and `user` the current user. An `error`
is a raised exception; it occurs before any transport call is made. -/
def assembleJobs (args : JObj) (stdinJson : Option JVal) (stdinLines : List String)
    (gen : Nat → String) (user : String) : Except String (List JVal × Option JObj) :=
  match stage1 args gen with
  | Except.error e => Except.error e
  | Except.ok s =>
    if truthy s.rawV then
      if truthy s.cmdV then
        Except.error ("You cannot specify a command at the command line when using --raw/-r.")
      else
        match parse_raw_job_spec s.tpl stdinJson with
        | Except.error e => Except.error e
        | Except.ok jobs =>
            match postAll s.preV gen user s.k1 jobs with
            | Except.error e => Except.error e
            | Except.ok jobs2 => Except.ok (jobs2, s.group)
    else
      match acquire_commands (strListOf s.cmdV) stdinLines with
      | Except.error e => Except.error e
      | Except.ok commands =>
          if truthy (lookupJ ("uuid") s.tpl) && decide (commands.length > 1) then
            Except.error ("You cannot specify multiple subcommands with a single UUID.")
          else
            match envStep s.tpl with
            | Except.error e => Except.error e
            | Except.ok tpl2 =>
                let jobs := commands.map (fun c => JVal.obj (mergeObj tpl2 [("command", JVal.str c)]))
                match postAll s.preV gen user s.k1 jobs with
                | Except.error e => Except.error e
                | Except.ok jobs2 => Except.ok (jobs2, s.group)

/-- `submit` end to end (lines 149-202): guard against an empty cluster
list (`guard_no_cluster`, modelled from the spec: federation runs over a
non-empty ordered cluster list), assemble the batch, then run the federated
loop. An assembly error is a raised exception carrying no federated outcome
and no transport trace: no network call happens on a validation failure. -/
def submitRun (transport : Cluster → JVal → Wire) (clusters : List Cluster) (args : JObj)
    (stdinJson : Option JVal) (stdinLines : List String) (gen : Nat → String) (user : String) :
    Except String (FedOutcome × List Cluster) :=
  if clusters.isEmpty then Except.error ("no clusters configured")
  else
    match assembleJobs args stdinJson stdinLines gen user with
    | Except.error e => Except.error e
    | Except.ok jg => Except.ok (submit_federated transport (requestBody jg.1 jg.2) clusters)

/-! ## Association-list toolkit -/

theorem lookupJ_oset_eq (k : String) (v : JVal) (o : JObj) :
    lookupJ k (oset k v o) = some v := by
  induction o with
  | nil => simp [oset, lookupJ]
  | cons e es ih =>
      by_cases h : e.1 = k
      · simp [oset, h, lookupJ]
      · simp [oset, h, lookupJ, ih]

theorem lookupJ_oset_ne (k k' : String) (v : JVal) (o : JObj) (h : k ≠ k') :
    lookupJ k (oset k' v o) = lookupJ k o := by
  have h' : ¬(k' = k) := Ne.symm h
  induction o with
  | nil => simp [oset, lookupJ, h']
  | cons e es ih =>
      by_cases he : e.1 = k'
      · simp [oset, he, lookupJ, h']
      · simp [oset, he, lookupJ, ih]

theorem lookupJ_orem_ne (k k' : String) (o : JObj) (h : k ≠ k') :
    lookupJ k (orem k' o) = lookupJ k o := by
  have h' : ¬(k' = k) := Ne.symm h
  induction o with
  | nil => simp [orem, lookupJ]
  | cons e es ih =>
      by_cases he : e.1 = k'
      · simp [orem, he, lookupJ, h', ih]
      · simp [orem, he, lookupJ, ih]

/-- C8: the merge recurses exactly on keys whose values are mappings in both
operands (conjuncts 1 and 2 — the merged value at a shared key is the
recursive `deep_merge`, which on non-mapping operands returns the override);
otherwise the override's value replaces the base's outright, including when
the types differ (conjunct 3); keys only in the override are added and keys
only in the base are preserved (conjunct 1); an override list always fully
replaces whatever the base holds (conjunct 4). -/
theorem claim_C8 (b o : JObj) (k : String) (bv w : JVal) :
    (lookupJ k (mergeObj b o) =
      match lookupJ k b with
      | some v => some (match lookupJ k o with
          | some wv => deep_merge v wv
          | none => v)
      | none => lookupJ k o)
    ∧ deep_merge (JVal.obj b) (JVal.obj o) = JVal.obj (mergeObj b o)
    ∧ ((∀ m : JObj, bv ≠ JVal.obj m) ∨ (∀ m : JObj, w ≠ JVal.obj m) → deep_merge bv w = w)
    ∧ (∀ l : List JVal, deep_merge bv (JVal.arr l) = JVal.arr l) := by
  refine ⟨lookupJ_mergeObj k b o, deep_merge_obj_obj b o, ?_, ?_⟩
  · rintro (hb | hw)
    · exact deep_merge_not_obj_left bv w hb
    · exact deep_merge_not_obj_right bv w hw
  · intro l
    exact deep_merge_not_obj_right bv (JVal.arr l) (fun m h => JVal.noConfusion h)

/-- The spec example's base mapping. -/
def exB : JObj := [("a", JVal.num 1), ("b", JVal.obj [("x", JVal.num 1)])]

/-- The spec example's override mapping. -/
def exO : JObj := [("b", JVal.obj [("y", JVal.num 2)]), ("c", JVal.num 3)]

theorem claim_C8_witness :
    mergeObj exB exO = [("a", JVal.num 1), ("b", JVal.obj [("x", JVal.num 1), ("y", JVal.num 2)]), ("c", JVal.num 3)]
    ∧ deep_merge (JVal.num 1) (JVal.arr [JVal.num 5]) = JVal.arr [JVal.num 5]
    ∧ lookupJ ("b") (mergeObj exB exO) = some (JVal.obj [("x", JVal.num 1), ("y", JVal.num 2)]) := by
  have h := claim_C8 exB exO ("b") (JVal.num 1) (JVal.arr [JVal.num 5])
  refine ⟨rfl, ?_, ?_⟩
  · exact h.2.2.1 (Or.inl (fun m hm => JVal.noConfusion hm))
  · rw [h.1]
    rfl

/-- C7: a stdin payload parsing as a mapping yields exactly one job, the
mapping merged over the template with the override winning; a payload
parsing as a list yields one job per element, each merged over the template;
any other top-level shape, and a JSON syntax error alike, raise the
malformed-raw-job validation failure (which aborts assembly before any
transport call, as `assembleJobs` propagates it). -/
theorem claim_C7 (tpl : JObj) (r : Option JVal) :
    (∀ m : JObj, r = some (JVal.obj m) → parse_raw_job_spec tpl r = Except.ok [JVal.obj (mergeObj tpl m)])
    ∧ (∀ l : List JVal, r = some (JVal.arr l) →
        parse_raw_job_spec tpl r = Except.ok (l.map (fun c => deep_merge (JVal.obj tpl) c)))
    ∧ (r = none → parse_raw_job_spec tpl r = Except.error ("malformed JSON for raw job"))
    ∧ (∀ v, r = some v → (∀ m : JObj, v ≠ JVal.obj m) → (∀ l : List JVal, v ≠ JVal.arr l) →
        parse_raw_job_spec tpl r = Except.error ("malformed JSON for raw job")) := by
  refine ⟨?_, ?_, ?_, ?_⟩
  · intro m hm
    subst hm
    simp [parse_raw_job_spec, deep_merge_obj_obj]
  · intro l hl
    subst hl
    rfl
  · intro h
    subst h
    rfl
  · intro v hv hobj harr
    subst hv
    cases v with
    | obj m => exact absurd rfl (hobj m)
    | arr l => exact absurd rfl (harr l)
    | null => rfl
    | bool x => rfl
    | num x => rfl
    | str x => rfl

/-- The spec example's raw-mode template. -/
def tplMem : JObj := [("mem", JVal.num 128)]

theorem claim_C7_witness :
    parse_raw_job_spec tplMem (some (JVal.obj [("cpus", JVal.num 2)]))
      = Except.ok [JVal.obj [("mem", JVal.num 128), ("cpus", JVal.num 2)]]
    ∧ parse_raw_job_spec tplMem (some (JVal.arr [JVal.obj [("cpus", JVal.num 1)], JVal.obj [("cpus", JVal.num 2)]]))
      = Except.ok [JVal.obj [("mem", JVal.num 128), ("cpus", JVal.num 1)], JVal.obj [("mem", JVal.num 128), ("cpus", JVal.num 2)]]
    ∧ parse_raw_job_spec tplMem (some (JVal.str ("5"))) = Except.error ("malformed JSON for raw job")
    ∧ parse_raw_job_spec tplMem none = Except.error ("malformed JSON for raw job") := by
  refine ⟨?_, ?_, ?_, ?_⟩
  · rw [(claim_C7 tplMem (some (JVal.obj [("cpus", JVal.num 2)]))).1 [("cpus", JVal.num 2)] rfl]
    rfl
  · rw [(claim_C7 tplMem (some (JVal.arr [JVal.obj [("cpus", JVal.num 1)], JVal.obj [("cpus", JVal.num 2)]]))).2.1
      [JVal.obj [("cpus", JVal.num 1)], JVal.obj [("cpus", JVal.num 2)]] rfl]
    rfl
  · exact (claim_C7 tplMem (some (JVal.str ("5")))).2.2.2 (JVal.str ("5")) rfl
      (fun m hm => JVal.noConfusion hm) (fun l hl => JVal.noConfusion hl)
  · exact (claim_C7 tplMem none).2.2.1 rfl

theorem postOne_spec (preV : JVal) (gen : Nat → String) (user : String) (k : Nat) (j : JObj)
    (out : JVal × Nat) (hok : postOne preV gen user k (JVal.obj j) = Except.ok out) :
    ∃ j2 : JObj, out.1 = JVal.obj j2
    ∧ (truthy (lookupJ ("uuid") j) = false →
        lookupJ ("uuid") j2 = some (JVal.str (gen k)) ∧ out.2 = k + 1)
    ∧ (truthy (lookupJ ("uuid") j) = true →
        lookupJ ("uuid") j2 = lookupJ ("uuid") j ∧ out.2 = k)
    ∧ (truthy (lookupJ ("name") j) = false → lookupJ ("name") j2 = some (JVal.str (user ++ "_job")))
    ∧ (truthy (lookupJ ("name") j) = true → lookupJ ("name") j2 = lookupJ ("name") j)
    ∧ (truthyV preV = false → lookupJ ("command") j2 = lookupJ ("command") j)
    ∧ (∀ cv, truthyV preV = true → lookupJ ("command") j = some cv →
        lookupJ ("command") j2 = some (JVal.str (pyStr preV ++ pyStr cv)))
    ∧ (∀ key, key ≠ "uuid" → key ≠ "name" → key ≠ "command" → lookupJ key j2 = lookupJ key j) := by
  have hun : ("name" : String) ≠ "uuid" := by decide
  have huc : ("command" : String) ≠ "uuid" := by decide
  have hnc : ("command" : String) ≠ "name" := by decide
  have hnu : ("uuid" : String) ≠ "name" := by decide
  set j1 : JObj := if truthy (lookupJ ("uuid") j) then j else oset ("uuid") (JVal.str (gen k)) j with hj1
  have hname1 : lookupJ ("name") j1 = lookupJ ("name") j := by
    rw [hj1]
    by_cases hu : truthy (lookupJ ("uuid") j)
    · simp [hu]
    · simp [hu, lookupJ_oset_ne _ _ _ _ hun]
  set j2 : JObj := if truthy (lookupJ ("name") j1) then j1
    else oset ("name") (JVal.str (user ++ "_job")) j1 with hj2
  have hcmd2 : lookupJ ("command") j2 = lookupJ ("command") j := by
    rw [hj2, hj1]
    by_cases hu : truthy (lookupJ ("uuid") j) <;>
      by_cases hn : truthy (lookupJ ("name") j1) <;>
        simp_all [lookupJ_oset_ne _ _ _ _ huc, lookupJ_oset_ne _ _ _ _ hnc]
  have huuid2 : lookupJ ("uuid") j2 = lookupJ ("uuid") j1 := by
    rw [hj2]
    by_cases hn : truthy (lookupJ ("name") j1)
    · simp [hn]
    · simp [hn, lookupJ_oset_ne _ _ _ _ hnu]
  have hname2 : (truthy (lookupJ ("name") j) = false →
        lookupJ ("name") j2 = some (JVal.str (user ++ "_job")))
      ∧ (truthy (lookupJ ("name") j) = true → lookupJ ("name") j2 = lookupJ ("name") j) := by
    constructor
    · intro hn
      rw [hj2, hname1, hn]
      simp [lookupJ_oset_eq]
    · intro hn
      rw [hj2, hname1, hn]
      simp [hname1]
  have hkey12 : ∀ key, key ≠ "uuid" → key ≠ "name" → lookupJ key j2 = lookupJ key j := by
    intro key hku hkn
    rw [hj2, hj1]
    by_cases hu : truthy (lookupJ ("uuid") j) <;>
      by_cases hn : truthy (lookupJ ("name") j1) <;>
        simp_all [lookupJ_oset_ne _ _ _ _ hku, lookupJ_oset_ne _ _ _ _ hkn]
  have hout : postOne preV gen user k (JVal.obj j) =
      (if truthyV preV then
        match lookupJ ("command") j2 with
        | some cv => Except.ok (JVal.obj (oset ("command") (JVal.str (pyStr preV ++ pyStr cv)) j2),
            if truthy (lookupJ ("uuid") j) then k else k + 1)
        | none => Except.error ("KeyError: command")
      else Except.ok (JVal.obj j2, if truthy (lookupJ ("uuid") j) then k else k + 1)) := by
    rw [postOne, hj2, hj1]
    by_cases hu : truthy (lookupJ ("uuid") j) <;> simp [hu]
  rw [hout] at hok
  by_cases hp : truthyV preV
  · rw [if_pos hp] at hok
    cases hcv : lookupJ ("command") j2 with
    | none => rw [hcv] at hok; cases hok
    | some cv =>
        rw [hcv] at hok
        have hout1 := congrArg Prod.fst (Except.ok.inj hok)
        have hout2 := congrArg Prod.snd (Except.ok.inj hok)
        simp only at hout1 hout2
        refine ⟨oset ("command") (JVal.str (pyStr preV ++ pyStr cv)) j2, hout1.symm, ?_, ?_, ?_, ?_, ?_, ?_, ?_⟩
        · intro hu
          rw [← hout2, hu]
          refine ⟨?_, by simp [hu]⟩
          rw [lookupJ_oset_ne _ _ _ _ (by decide), huuid2, hj1, hu]
          simp [lookupJ_oset_eq]
        · intro hu
          rw [← hout2, hu]
          refine ⟨?_, by simp [hu]⟩
          rw [lookupJ_oset_ne _ _ _ _ (by decide), huuid2, hj1, hu]
          simp
        · intro hn
          rw [lookupJ_oset_ne _ _ _ _ (by decide)]
          exact hname2.1 hn
        · intro hn
          rw [lookupJ_oset_ne _ _ _ _ (by decide)]
          exact hname2.2 hn
        · intro hpf
          rw [hpf] at hp
          cases hp
        · intro cv2 _ hcmd
          rw [hcmd2] at hcv
          rw [hcv] at hcmd
          cases hcmd
          simp [lookupJ_oset_eq]
        · intro key hku hkn hkc
          rw [lookupJ_oset_ne _ _ _ _ hkc]
          exact hkey12 key hku hkn
  · rw [if_neg hp] at hok
    have hout1 := congrArg Prod.fst (Except.ok.inj hok)
    have hout2 := congrArg Prod.snd (Except.ok.inj hok)
    simp only at hout1 hout2
    refine ⟨j2, hout1.symm, ?_, ?_, hname2.1, hname2.2, fun _ => hcmd2, ?_, fun key hku hkn _ => hkey12 key hku hkn⟩
    · intro hu
      rw [← hout2, hu]
      refine ⟨?_, by simp [hu]⟩
      rw [huuid2, hj1, hu]
      simp [lookupJ_oset_eq]
    · intro hu
      rw [← hout2, hu]
      refine ⟨?_, by simp [hu]⟩
      rw [huuid2, hj1, hu]
      simp
    · intro cv hpt
      exact absurd hpt hp

theorem postAll_spec (preV : JVal) (gen : Nat → String) (user : String)
    (jobs : List JVal) : ∀ (k : Nat) (jobs2 : List JVal),
    postAll preV gen user k jobs = Except.ok jobs2 →
    jobs2.length = jobs.length
    ∧ ∀ i (hi : i < jobs.length) (hi2 : i < jobs2.length),
        ∃ kk out, postOne preV gen user kk (jobs.get ⟨i, hi⟩) = Except.ok out
          ∧ jobs2.get ⟨i, hi2⟩ = out.1 := by
  induction jobs with
  | nil =>
      intro k jobs2 h
      rw [postAll] at h
      cases h
      exact ⟨rfl, fun i hi _ => absurd hi (by simp)⟩
  | cons j js ih =>
      intro k jobs2 h
      rw [postAll] at h
      split at h
      · cases h
      · rename_i jk h1
        split at h
        · cases h
        · rename_i rest h2
          cases h
          obtain ⟨hlen, hidx⟩ := ih jk.2 rest h2
          refine ⟨by simp [hlen], ?_⟩
          intro i hi hi2
          cases i with
          | zero => exact ⟨k, jk, h1, rfl⟩
          | succ n => exact hidx n (by simpa using hi) (by simpa using hi2)

theorem postAll_uuids (preV : JVal) (gen : Nat → String) (user : String)
    (jobs : List JVal) : ∀ (k : Nat) (jobs2 : List JVal),
    (∀ j ∈ jobs, ∃ jo : JObj, j = JVal.obj jo ∧ truthy (lookupJ ("uuid") jo) = false) →
    postAll preV gen user k jobs = Except.ok jobs2 →
    ∀ i (hi2 : i < jobs2.length), ∃ jo2 : JObj,
        jobs2.get ⟨i, hi2⟩ = JVal.obj jo2
        ∧ lookupJ ("uuid") jo2 = some (JVal.str (gen (k + i))) := by
  induction jobs with
  | nil =>
      intro k jobs2 _ h
      rw [postAll] at h
      cases h
      intro i hi2
      exact absurd hi2 (by simp)
  | cons j js ih =>
      intro k jobs2 hfal h
      rw [postAll] at h
      split at h
      · cases h
      · rename_i jk h1
        split at h
        · cases h
        · rename_i rest h2
          cases h
          obtain ⟨jo, hj, hu⟩ := hfal j (by simp)
          subst hj
          obtain ⟨j2, hout1, hfresh, _⟩ := postOne_spec preV gen user k jo jk h1
          obtain ⟨huu, hk2⟩ := hfresh hu
          intro i hi2
          cases i with
          | zero =>
              refine ⟨j2, by simpa using hout1, ?_⟩
              simpa using huu
          | succ n =>
              obtain ⟨jo2, hg, hl⟩ := ih jk.2 rest (fun x hx => hfal x (by simp [hx])) h2 n (by simpa using hi2)
              have harith : jk.2 + n = k + (n + 1) := by omega
              refine ⟨jo2, by simpa using hg, ?_⟩
              rw [hl, harith]

/-- C9: post-processing is applied to every job of the batch, whatever its
source: a job lacking a (truthy) id receives a freshly generated UUID-shaped
id; a job lacking a (truthy) name receives the name `user ++ "_job"`; and
when a truthy command-prefix is configured, the prefix is concatenated
directly — no separator — in front of the job's command; with no prefix the
command is untouched, and ids and names already present are kept. -/
theorem claim_C9 (preV : JVal) (gen : Nat → String) (user : String) (k : Nat)
    (jobs jobs2 : List JVal)
    (hgen : ∀ n, is_valid_uuid (gen n) = true)
    (hok : postAll preV gen user k jobs = Except.ok jobs2) :
    jobs2.length = jobs.length
    ∧ ∀ i (hi : i < jobs.length) (hi2 : i < jobs2.length), ∀ j : JObj,
        jobs.get ⟨i, hi⟩ = JVal.obj j →
        ∃ j2 : JObj, jobs2.get ⟨i, hi2⟩ = JVal.obj j2
        ∧ (truthy (lookupJ ("uuid") j) = false →
            ∃ n, lookupJ ("uuid") j2 = some (JVal.str (gen n)) ∧ is_valid_uuid (gen n) = true)
        ∧ (truthy (lookupJ ("uuid") j) = true → lookupJ ("uuid") j2 = lookupJ ("uuid") j)
        ∧ (truthy (lookupJ ("name") j) = false → lookupJ ("name") j2 = some (JVal.str (user ++ "_job")))
        ∧ (truthy (lookupJ ("name") j) = true → lookupJ ("name") j2 = lookupJ ("name") j)
        ∧ (truthyV preV = false → lookupJ ("command") j2 = lookupJ ("command") j)
        ∧ (∀ cv, truthyV preV = true → lookupJ ("command") j = some cv →
            lookupJ ("command") j2 = some (JVal.str (pyStr preV ++ pyStr cv))) := by
  obtain ⟨hlen, hidx⟩ := postAll_spec preV gen user jobs k jobs2 hok
  refine ⟨hlen, ?_⟩
  intro i hi hi2 j hj
  obtain ⟨kk, out, h1, h2⟩ := hidx i hi hi2
  rw [hj] at h1
  obtain ⟨j2, hout1, hfu, htu, hfn, htn, hfp, htp, _⟩ := postOne_spec preV gen user kk j out h1
  refine ⟨j2, by rw [h2, hout1], ?_, fun hu => (htu hu).1, hfn, htn, hfp, htp⟩
  intro hu
  exact ⟨kk, (hfu hu).1, hgen kk⟩

/-- An injective, UUID-shaped id generator for concrete scenarios: the
fresh-index digit is placed in the last position of a canonical shape. -/
def genU (n : Nat) : String :=
  String.mk (("00000000-0000-4000-8000-00000000000").data ++ [Char.ofNat (48 + n % 10)])

theorem genU_valid (n : Nat) : is_valid_uuid (genU n) = true := by
  have h10 : n % 10 < 10 := Nat.mod_lt _ (by decide)
  unfold genU
  interval_cases h : n % 10 <;> decide

/-- The truthy command-prefix value of the concrete post-processing run. -/
def pv0 : JVal := JVal.str ("p:")

/-- A two-job batch before post-processing: the first job has only a
command, the second has a command and a name. -/
def jobsIn : List JVal :=
  [JVal.obj [("command", JVal.str ("ls"))],
   JVal.obj [("command", JVal.str ("du")), ("name", JVal.str ("n1"))]]

/-- The first job after post-processing. -/
def outJ0 : JObj :=
  [("command", JVal.str ("p:ls")), ("uuid", JVal.str (genU 0)), ("name", JVal.str ("alice_job"))]

/-- The batch after post-processing. -/
def jobsOut : List JVal :=
  [JVal.obj outJ0,
   JVal.obj [("command", JVal.str ("p:du")), ("name", JVal.str ("n1")), ("uuid", JVal.str (genU 1))]]

theorem claim_C9_witness :
    jobsOut.length = jobsIn.length
    ∧ lookupJ ("command") outJ0 = some (JVal.str ("p:ls"))
    ∧ lookupJ ("uuid") outJ0 = some (JVal.str (genU 0))
    ∧ lookupJ ("name") outJ0 = some (JVal.str ("alice_job")) := by
  have h := claim_C9 pv0 genU ("alice") 0 jobsIn jobsOut genU_valid rfl
  obtain ⟨j2, hj2, hfu, htu, hfn, htn, hfp, htp⟩ :=
    h.2 0 (by decide) (by decide) [("command", JVal.str ("ls"))] rfl
  have h0 : JVal.obj outJ0 = JVal.obj j2 := by
    rw [← hj2]
    rfl
  obtain rfl := JVal.obj.inj h0
  exact ⟨h.1, htp (JVal.str ("ls")) rfl rfl, rfl, hfn rfl⟩

theorem stage1_ok (args : JObj) (gen : Nat → String)
    (hpre : (lookupJ ("command-prefix") (orem ("command") (orem ("raw") args))).isSome = true) :
    ∃ s : Stage1, stage1 args gen = Except.ok s
      ∧ s.rawV = lookupJ ("raw") args
      ∧ s.cmdV = lookupJ ("command") (orem ("raw") args)
      ∧ lookupJ ("uuid") s.tpl = lookupJ ("uuid") args := by
  obtain ⟨preV, hpv⟩ := Option.isSome_iff_exists.mp hpre
  have e1 : ∀ (o : JObj) (k' : String), k' ≠ "uuid" → lookupJ ("uuid") (orem k' o) = lookupJ ("uuid") o :=
    fun o k' h => lookupJ_orem_ne _ _ o (Ne.symm h)
  have e2 : ∀ (o : JObj) (k' : String) (v : JVal), k' ≠ "uuid" →
      lookupJ ("uuid") (oset k' v o) = lookupJ ("uuid") o :=
    fun o k' v h => lookupJ_oset_ne _ _ v o (Ne.symm h)
  simp only [stage1]
  rw [hpv]
  refine ⟨_, rfl, rfl, rfl, ?_⟩
  simp only
  split
  · rw [e1 _ _ (by decide)]
    split
    · rw [e2 _ _ _ (by decide), e2 _ _ _ (by decide), e1 _ _ (by decide), e1 _ _ (by decide),
        e1 _ _ (by decide), e1 _ _ (by decide), e1 _ _ (by decide)]
    · rw [e2 _ _ _ (by decide), e1 _ _ (by decide), e1 _ _ (by decide),
        e1 _ _ (by decide), e1 _ _ (by decide), e1 _ _ (by decide)]
  · split
    · rw [e2 _ _ _ (by decide), e2 _ _ _ (by decide), e1 _ _ (by decide), e1 _ _ (by decide),
        e1 _ _ (by decide), e1 _ _ (by decide), e1 _ _ (by decide)]
    · rw [e2 _ _ _ (by decide), e1 _ _ (by decide), e1 _ _ (by decide),
        e1 _ _ (by decide), e1 _ _ (by decide), e1 _ _ (by decide)]

/-- The explicit-uuid raw-mode configuration of the C5 counterexample. -/
def argsC5 : JObj := [("uuid", JVal.str u0), ("raw", JVal.bool true), ("command-prefix", JVal.str (""))]

/-- A raw stdin payload that parses as a list of two (empty) overrides. -/
def rawTwo : Option JVal := some (JVal.arr [JVal.obj [], JVal.obj []])

/-- The job both raw overrides of the counterexample assemble to. -/
def jobC5 : JObj :=
  [("uuid", JVal.str u0),
   ("application", JVal.obj [("name", JVal.str ("cook-scheduler-cli")), ("version", JVal.str cliVersion)]),
   ("name", JVal.str ("alice_job"))]

/-- C5 counterexample: with an explicit job id in the configuration and a
raw override list producing two jobs, assembly does NOT fail — the
ambiguous-id validation is skipped in raw mode — and the two-job batch is
then submitted over the network (the transport is called on cluster `cl1`),
refuting the claim for the raw-override case. -/
theorem claim_C5_counterexample :
    assembleJobs argsC5 rawTwo [] genU ("alice") = Except.ok ([JVal.obj jobC5, JVal.obj jobC5], none)
    ∧ submitRun wireReject [cl1] argsC5 rawTwo [] genU ("alice")
        = Except.ok (FedOutcome.exhausted allFailedMsg, [cl1]) := by
  exact ⟨rfl, rfl⟩

/-- C5 (amended): in command (non-raw) mode the validation holds as claimed:
a truthy explicit job id together with more than one resolved command fails
with the ambiguous-id error, and the invocation never reaches the federated
loop — no transport call is made. In raw mode the validation is not
performed (see the counterexample). -/
theorem claim_C5 (args : JObj) (sj : Option JVal) (stdinLines : List String)
    (gen : Nat → String) (user : String) (cmds : List String)
    (hpre : (lookupJ ("command-prefix") (orem ("command") (orem ("raw") args))).isSome = true)
    (hraw : truthy (lookupJ ("raw") args) = false)
    (huuid : truthy (lookupJ ("uuid") args) = true)
    (hacq : acquire_commands (strListOf (lookupJ ("command") (orem ("raw") args))) stdinLines = Except.ok cmds)
    (hlen : cmds.length > 1) :
    assembleJobs args sj stdinLines gen user
      = Except.error ("You cannot specify multiple subcommands with a single UUID.")
    ∧ ∀ (transport : Cluster → JVal → Wire) (clusters : List Cluster), clusters ≠ [] →
        submitRun transport clusters args sj stdinLines gen user
          = Except.error ("You cannot specify multiple subcommands with a single UUID.") := by
  obtain ⟨s, hs, hsraw, hscmd, hsuuid⟩ := stage1_ok args gen hpre
  have hmain : assembleJobs args sj stdinLines gen user
      = Except.error ("You cannot specify multiple subcommands with a single UUID.") := by
    rw [assembleJobs, hs]
    simp only [hsraw, hscmd, hsuuid, hraw, hacq, huuid, Bool.false_eq_true, if_false]
    simp [hlen]
  refine ⟨hmain, ?_⟩
  intro transport clusters hne
  rw [submitRun, hmain]
  simp [List.isEmpty_iff, hne]

/-- The non-raw explicit-uuid configuration of the C5 witness. -/
def argsC5w : JObj := [("uuid", JVal.str u0), ("command-prefix", JVal.str (""))]

theorem claim_C5_witness :
    assembleJobs argsC5w none ["cmd1", "cmd2"] genU ("alice")
      = Except.error ("You cannot specify multiple subcommands with a single UUID.")
    ∧ submitRun wireReject [cl1] argsC5w none ["cmd1", "cmd2"] genU ("alice")
      = Except.error ("You cannot specify multiple subcommands with a single UUID.") := by
  have h := claim_C5 argsC5w none ["cmd1", "cmd2"] genU ("alice") ["cmd1", "cmd2"]
    rfl rfl rfl rfl (by decide)
  exact ⟨h.1, h.2 wireReject [cl1] (by simp)⟩

theorem append_ne_left (a : String) (ha : a ≠ "") (b : String) : a ++ b ≠ "" := by
  intro h
  apply ha
  have hd := congrArg String.data h
  rw [String.data_append] at hd
  obtain ⟨h1, _⟩ := List.append_eq_nil.mp hd
  exact String.ext h1

theorem append_ne_right (c : String) (hc : c ≠ "") (a : String) : a ++ c ≠ "" := by
  intro h
  apply hc
  have hd := congrArg String.data h
  rw [String.data_append] at hd
  obtain ⟨_, h2⟩ := List.append_eq_nil.mp hd
  exact String.ext h2

theorem shlexQuote_ne_empty (s : String) : shlexQuote s ≠ "" := by
  rw [shlexQuote]
  by_cases h0 : s = ""
  · simp only [h0, if_true]
    intro h
    have := congrArg String.data h
    simp at this
  · rw [if_neg h0]
    by_cases hsafe : s.data.all shlexSafeCh
    · simp only [hsafe, if_true]
      exact h0
    · simp only [hsafe, if_false]
      intro h
      have := congrArg String.data h
      simp at this

theorem joinSpace_ne_empty (xs : List String) (hne : xs ≠ [])
    (hx : ∀ x ∈ xs, x ≠ "") : joinSpace xs ≠ "" := by
  match xs with
  | [] => exact absurd rfl hne
  | [s] => exact hx s (by simp)
  | s :: t :: rest =>
      show s ++ " " ++ joinSpace (t :: rest) ≠ ""
      exact append_ne_left _ (append_ne_left s (hx s (by simp)) (" ")) _

theorem acquire_commands_ne_empty (cmdArgs stdinLines : List String) (cmds : List String)
    (hone : ∀ t, cmdArgs = [t] → t ≠ "")
    (hok : acquire_commands cmdArgs stdinLines = Except.ok cmds) :
    ∀ c ∈ cmds, c ≠ "" := by
  rw [acquire_commands] at hok
  by_cases hargs : cmdArgs ≠ []
  · rw [if_pos hargs] at hok
    by_cases hlen : cmdArgs.length = 1
    · rw [if_pos hlen] at hok
      cases hok
      obtain ⟨t, rfl⟩ := List.length_eq_one.mp hlen
      intro c hc
      rw [List.mem_singleton] at hc
      subst hc
      exact hone c rfl
    · rw [if_neg hlen] at hok
      cases hok
      intro c hc
      rw [List.mem_singleton] at hc
      subst hc
      have hargs2 : (if cmdArgs.headD "" = "--" then cmdArgs.tail else cmdArgs) ≠ [] := by
        split
        · intro htl
          match cmdArgs, hargs with
          | [a], _ => exact hlen rfl
          | a :: b :: r, _ => simp at htl
        · exact hargs
      apply joinSpace_ne_empty _ (by simpa using hargs2)
      intro x hx
      rw [List.mem_map] at hx
      obtain ⟨y, _, rfl⟩ := hx
      exact shlexQuote_ne_empty y
  · rw [if_neg hargs] at hok
    by_cases hz : (stdinLines.filter (fun l => l ≠ "")).length < 1
    · rw [if_pos hz] at hok
      cases hok
    · rw [if_neg hz] at hok
      cases hok
      intro c hc
      exact of_decide_eq_true (List.mem_filter.mp hc).2

theorem envStep_inv (tpl tpl2 : JObj) (henv : envStep tpl = Except.ok tpl2) :
    ∀ key, key ≠ "env" → lookupJ key tpl2 = lookupJ key tpl := by
  intro key hkey
  rw [envStep] at henv
  split at henv
  · split at henv
    · split at henv
      · cases henv
        exact lookupJ_oset_ne _ _ _ _ hkey
      · cases henv
    · cases henv
  · cases henv
    rfl

theorem merge_command_lookup (t : JObj) (c : String) :
    lookupJ ("command") (mergeObj t [("command", JVal.str c)]) = some (JVal.str c) := by
  rw [lookupJ_mergeObj]
  cases h : lookupJ ("command") t with
  | none => simp [lookupJ]
  | some v =>
      simp [lookupJ, deep_merge_not_obj_right v (JVal.str c) (fun m hm => JVal.noConfusion hm)]

theorem merge_other_lookup (t : JObj) (v : JVal) (key : String) (hkey : key ≠ "command") :
    lookupJ key (mergeObj t [("command", v)]) = lookupJ key t := by
  rw [lookupJ_mergeObj]
  have hov : lookupJ key [("command", v)] = none := by
    simp [lookupJ, Ne.symm hkey]
  cases h : lookupJ key t with
  | none => simp [hov]
  | some w => simp [hov]

/-- The id of a job value, when the job is a mapping carrying one. -/
def jobUuid : JVal → Option JVal
  | JVal.obj j => lookupJ ("uuid") j
  | _ => none

theorem group_resolution (t6 : JObj) (g0 : String)
    (hg : (lookupJ ("group-name") t6).isSome = true) :
    ∃ gv, (lookupJ ("group") (if (lookupJ ("group-name") t6).isSome && !(lookupJ ("group") t6).isSome
        then oset ("group") (JVal.str g0) t6 else t6)).getD JVal.null = gv
      ∧ lookupJ ("group") (orem ("group-name") (if (lookupJ ("group-name") t6).isSome && !(lookupJ ("group") t6).isSome
        then oset ("group") (JVal.str g0) t6 else t6)) = some gv := by
  by_cases hgu : (lookupJ ("group") t6).isSome = true
  · obtain ⟨v, hv⟩ := Option.isSome_iff_exists.mp hgu
    refine ⟨v, ?_, ?_⟩
    · simp [hg, hgu, hv]
    · simp [hg, hgu, hv, lookupJ_orem_ne _ _ _ (by decide : ("group" : String) ≠ "group-name")]
  · have hgu2 := eq_false_of_ne_true hgu
    refine ⟨JVal.str g0, ?_, ?_⟩
    · simp [hg, hgu2, lookupJ_oset_eq]
    · simp [hg, hgu2, lookupJ_orem_ne _ _ _ (by decide : ("group" : String) ≠ "group-name"), lookupJ_oset_eq]

theorem stage1_inv (args : JObj) (gen : Nat → String) (s : Stage1)
    (hs : stage1 args gen = Except.ok s) :
    s.rawV = lookupJ ("raw") args
    ∧ s.cmdV = lookupJ ("command") (orem ("raw") args)
    ∧ lookupJ ("uuid") s.tpl = lookupJ ("uuid") args
    ∧ (∀ g, s.group = some g → ∃ gv, lookupJ ("uuid") g = some gv ∧ lookupJ ("group") s.tpl = some gv) := by
  have e1 : ∀ (o : JObj) (k' : String), k' ≠ "uuid" → lookupJ ("uuid") (orem k' o) = lookupJ ("uuid") o :=
    fun o k' h => lookupJ_orem_ne _ _ o (Ne.symm h)
  have e2 : ∀ (o : JObj) (k' : String) (v : JVal), k' ≠ "uuid" →
      lookupJ ("uuid") (oset k' v o) = lookupJ ("uuid") o :=
    fun o k' v h => lookupJ_oset_ne _ _ v o (Ne.symm h)
  simp only [stage1] at hs
  split at hs
  · cases hs
  · rename_i preV hpv
    cases hs
    refine ⟨rfl, rfl, ?_, ?_⟩
    · simp only
      split
      · rw [e1 _ _ (by decide)]
        split
        · rw [e2 _ _ _ (by decide), e2 _ _ _ (by decide), e1 _ _ (by decide), e1 _ _ (by decide),
            e1 _ _ (by decide), e1 _ _ (by decide), e1 _ _ (by decide)]
        · rw [e2 _ _ _ (by decide), e1 _ _ (by decide), e1 _ _ (by decide),
            e1 _ _ (by decide), e1 _ _ (by decide), e1 _ _ (by decide)]
      · split
        · rw [e2 _ _ _ (by decide), e2 _ _ _ (by decide), e1 _ _ (by decide), e1 _ _ (by decide),
            e1 _ _ (by decide), e1 _ _ (by decide), e1 _ _ (by decide)]
        · rw [e2 _ _ _ (by decide), e1 _ _ (by decide), e1 _ _ (by decide),
            e1 _ _ (by decide), e1 _ _ (by decide), e1 _ _ (by decide)]
    · intro g hg
      simp only at hg
      split at hg
      · rename_i hasG
        cases hg
        obtain ⟨gv, hgv1, hgv2⟩ := group_resolution _ (gen 0) hasG
        refine ⟨gv, by simp [lookupJ, hgv1], ?_⟩
        rw [if_pos hasG]
        exact hgv2
      · cases hg

/-- The raw-mode configuration of the C6 counterexample. -/
def argsC6 : JObj := [("command-prefix", JVal.str ("")), ("raw", JVal.bool true), ("mem", JVal.num 128)]

/-- The job assembled from the spec's own raw example: it carries no
command key at all. -/
def jobC6 : JObj :=
  [("mem", JVal.num 128),
   ("application", JVal.obj [("name", JVal.str ("cook-scheduler-cli")), ("version", JVal.str cliVersion)]),
   ("cpus", JVal.num 2),
   ("uuid", JVal.str (genU 0)),
   ("name", JVal.str ("alice_job"))]

/-- C6 counterexample: the raw-mode batch assembled from the spec's own
example override (template `mem=128`, stdin `cpus=2`) succeeds and its only
job has no command at all — refuting the non-empty-command invariant for raw
mode. -/
theorem claim_C6_counterexample :
    assembleJobs argsC6 (some (JVal.obj [("cpus", JVal.num 2)])) [] genU ("alice")
      = Except.ok ([JVal.obj jobC6], none)
    ∧ lookupJ ("command") jobC6 = none := ⟨rfl, rfl⟩

/-- C6 (amended): in command (non-raw) mode — with an injective id
generator, and a non-empty token when exactly one explicit token is
supplied — every successfully assembled batch satisfies the invariant:
every job is a mapping with a non-empty command, job ids are pairwise
distinct, and when a group exists every job carries the group's id as its
group reference. (Raw mode enforces none of this; see the counterexample.) -/
theorem claim_C6 (args : JObj) (sj : Option JVal) (stdinLines : List String)
    (gen : Nat → String) (user : String) (jobs : List JVal) (group : Option JObj)
    (hraw : truthy (lookupJ ("raw") args) = false)
    (hinj : Function.Injective gen)
    (hone : ∀ t, strListOf (lookupJ ("command") (orem ("raw") args)) = [t] → t ≠ "")
    (hok : assembleJobs args sj stdinLines gen user = Except.ok (jobs, group)) :
    (∀ j ∈ jobs, ∃ jo : JObj, j = JVal.obj jo ∧ ∃ c, lookupJ ("command") jo = some (JVal.str c) ∧ c ≠ "")
    ∧ (∀ i1 i2 (h1 : i1 < jobs.length) (h2 : i2 < jobs.length), i1 ≠ i2 →
        jobUuid (jobs.get ⟨i1, h1⟩) ≠ jobUuid (jobs.get ⟨i2, h2⟩))
    ∧ (∀ g, group = some g → ∃ gv, lookupJ ("uuid") g = some gv ∧
        ∀ j ∈ jobs, ∃ jo : JObj, j = JVal.obj jo ∧ lookupJ ("group") jo = some gv) := by
  rw [assembleJobs] at hok
  split at hok
  · cases hok
  · rename_i s hst
    obtain ⟨hsraw, hscmd, hsuuid, hsgroup⟩ := stage1_inv args gen s hst
    have hraw2 : ¬(truthy s.rawV = true) := by
      rw [hsraw, hraw]
      simp
    rw [if_neg hraw2] at hok
    have hone2 : ∀ t, strListOf s.cmdV = [t] → t ≠ "" := by
      rw [hscmd]
      exact hone
    split at hok
    · cases hok
    · rename_i cmds hacq
      split at hok
      · cases hok
      · rename_i hchk
        split at hok
        · cases hok
        · rename_i tpl2 henv
          dsimp only at hok
          split at hok
          · cases hok
          · rename_i jobs2 hpost
            cases hok
            set f := fun c => JVal.obj (mergeObj tpl2 [("command", JVal.str c)]) with hf
            have hcne : ∀ c ∈ cmds, c ≠ "" := acquire_commands_ne_empty _ stdinLines cmds hone2 hacq
            obtain ⟨hlen2, hidx⟩ := postAll_spec s.preV gen user (cmds.map f) s.k1 jobs hpost
            have hjob : ∀ i (hi : i < jobs.length), ∃ (c : String) (j2 : JObj), c ∈ cmds
                ∧ jobs.get ⟨i, hi⟩ = JVal.obj j2
                ∧ (∃ c2, lookupJ ("command") j2 = some (JVal.str c2) ∧ c2 ≠ "")
                ∧ lookupJ ("group") j2 = lookupJ ("group") s.tpl := by
              intro i hi
              have hi0 : i < (cmds.map f).length := hlen2 ▸ hi
              obtain ⟨kk, out, h1, h2⟩ := hidx i hi0 hi
              have hicm : i < cmds.length := by simpa using hi0
              have hgm : (cmds.map f).get ⟨i, hi0⟩ = f (cmds.get ⟨i, hicm⟩) := by simp
              rw [hgm] at h1
              have hcm : cmds.get ⟨i, hicm⟩ ∈ cmds := List.get_mem cmds i hicm
              obtain ⟨j2, hout1, _, _, _, _, hfp, htp, hkeep⟩ :=
                postOne_spec s.preV gen user kk (mergeObj tpl2 [("command", JVal.str (cmds.get ⟨i, hicm⟩))]) out h1
              refine ⟨cmds.get ⟨i, hicm⟩, j2, hcm, by rw [h2, hout1], ?_, ?_⟩
              · by_cases hp : truthyV s.preV = true
                · exact ⟨pyStr s.preV ++ cmds.get ⟨i, hicm⟩,
                    htp (JVal.str (cmds.get ⟨i, hicm⟩)) hp (merge_command_lookup tpl2 _),
                    append_ne_right _ (hcne _ hcm) _⟩
                · have hp2 : truthyV s.preV = false := eq_false_of_ne_true hp
                  exact ⟨cmds.get ⟨i, hicm⟩, by rw [hfp hp2, merge_command_lookup], hcne _ hcm⟩
              · rw [hkeep ("group") (by decide) (by decide) (by decide),
                  merge_other_lookup _ _ _ (by decide), envStep_inv _ _ henv _ (by decide)]
            refine ⟨?_, ?_, ?_⟩
            · intro j hj
              obtain ⟨⟨i, hi⟩, rfl⟩ := List.mem_iff_get.mp hj
              obtain ⟨c, j2, _, hgeq, hcmd, _⟩ := hjob i hi
              exact ⟨j2, hgeq, hcmd⟩
            · intro i1 i2 h1 h2 hne12
              by_cases hlen1 : cmds.length > 1
              · have huf : truthy (lookupJ ("uuid") s.tpl) = false := by
                  cases hb : truthy (lookupJ ("uuid") s.tpl) with
                  | false => rfl
                  | true => exact absurd (by rw [hb]; simp [hlen1]) hchk
                have hfal : ∀ j ∈ cmds.map f, ∃ jo : JObj, j = JVal.obj jo
                    ∧ truthy (lookupJ ("uuid") jo) = false := by
                  intro j hj
                  obtain ⟨c, _, rfl⟩ := List.mem_map.mp hj
                  refine ⟨_, rfl, ?_⟩
                  rw [merge_other_lookup _ _ _ (by decide), envStep_inv _ _ henv _ (by decide)]
                  exact huf
                have hu := postAll_uuids s.preV gen user (cmds.map f) s.k1 jobs hfal hpost
                obtain ⟨a1, hga1, hua1⟩ := hu i1 h1
                obtain ⟨a2, hga2, hua2⟩ := hu i2 h2
                rw [hga1, hga2]
                simp only [jobUuid]
                rw [hua1, hua2]
                intro hx
                have := hinj (JVal.str.inj (Option.some.inj hx))
                omega
              · exfalso
                have hlj : jobs.length = cmds.length := by
                  rw [hlen2]
                  simp
                omega
            · intro g hg
              obtain ⟨gv, hgu, hgt⟩ := hsgroup g hg
              refine ⟨gv, hgu, ?_⟩
              intro j hj
              obtain ⟨⟨i, hi⟩, rfl⟩ := List.mem_iff_get.mp hj
              obtain ⟨c, j2, _, hgeq, _, hgrp⟩ := hjob i hi
              exact ⟨j2, hgeq, by rw [hgrp, hgt]⟩

/-- An injective id generator: `n + 1` copies of one letter. -/
def genInj (n : Nat) : String := String.mk (List.replicate (n + 1) (Char.ofNat 97))

theorem genInj_injective : Function.Injective genInj := by
  intro a b h
  have hd := congrArg (fun s => s.data.length) h
  simpa [genInj] using hd

/-- The non-raw group-carrying configuration of the C6 witness. -/
def argsC6w : JObj := [("command-prefix", JVal.str ("p-")), ("group-name", JVal.str ("grp"))]

/-- The application tag every assembled job carries. -/
def appObj : JVal :=
  JVal.obj [("name", JVal.str ("cook-scheduler-cli")), ("version", JVal.str cliVersion)]

/-- First assembled job of the witness scenario. -/
def jw1 : JObj :=
  [("application", appObj), ("group", JVal.str (genInj 0)),
   ("command", JVal.str ("p-echo a")), ("uuid", JVal.str (genInj 1)), ("name", JVal.str ("alice_job"))]

/-- Second assembled job of the witness scenario. -/
def jw2 : JObj :=
  [("application", appObj), ("group", JVal.str (genInj 0)),
   ("command", JVal.str ("p-echo b")), ("uuid", JVal.str (genInj 2)), ("name", JVal.str ("alice_job"))]

/-- The witness scenario's group. -/
def grpC6w : JObj := [("name", JVal.str ("grp")), ("uuid", JVal.str (genInj 0))]

/-- The witness scenario's assembled batch. -/
def jobsC6w : List JVal := [JVal.obj jw1, JVal.obj jw2]

theorem claim_C6_witness :
    assembleJobs argsC6w none ["echo a", "echo b"] genInj ("alice") = Except.ok (jobsC6w, some grpC6w)
    ∧ lookupJ ("command") jw1 = some (JVal.str ("p-echo a"))
    ∧ jobUuid (JVal.obj jw1) ≠ jobUuid (JVal.obj jw2)
    ∧ lookupJ ("uuid") grpC6w = some (JVal.str (genInj 0))
    ∧ lookupJ ("group") jw1 = some (JVal.str (genInj 0)) := by
  have h := claim_C6 argsC6w none ["echo a", "echo b"] genInj ("alice") jobsC6w (some grpC6w)
    rfl genInj_injective (fun t ht => List.noConfusion ht) rfl
  refine ⟨rfl, rfl, ?_, rfl, ?_⟩
  · exact h.2.1 0 1 (by decide) (by decide) (by decide)
  · obtain ⟨gv, hgv, hall⟩ := h.2.2 grpC6w rfl
    have hg0 : lookupJ ("uuid") grpC6w = some (JVal.str (genInj 0)) := rfl
    have hgv2 : gv = JVal.str (genInj 0) := Option.some.inj (hgv.symm.trans hg0)
    obtain ⟨jo, hjo, hgr⟩ := hall (JVal.obj jw1) (List.mem_cons_self _ _)
    obtain rfl := JVal.obj.inj hjo
    rw [hgr, hgv2]

end Cook
